import Mathlib

/-!
Shallow embedding of the transcript-to-genome coordinate mapping program
(InvitaeTech.py): CIGAR validation (is_cigar_valid), CIGAR expansion
(cigar_str_to_list), coordinate resolution (get_genome_pos), the
transcript-table loader (get_transcript_dict) and the query loop of
query_transcript, together with theorems settling the specification
claims.  Machine integers of the source are modelled as Int/Nat (Python
integers are unbounded, so no wrap-around is modelled); a raised
ValueError is modelled as the value none of an Option result.
-/

/-- Result of a genome-position query: either a genomic coordinate or the
sentinel NA that the source returns (as the string 'NA') when the query
coordinate falls inside an insertion. -/
inductive GenomePos where
  | na : GenomePos
  | pos : Int → GenomePos
  deriving DecidableEq, Repr

/-- Numeric value of an ASCII digit character, as Python int() assigns it
digit by digit. -/
def digitVal (c : Char) : Nat := c.toNat - 48

/-- Value of an accumulated run-length digit string: models Python
int(num_str) on the ASCII-digit strings that arise while scanning a CIGAR
(int('') cannot arise on validated input; it is modelled as 0). -/
def numStrToNat (cs : List Char) : Nat :=
  cs.foldl (fun a c => 10 * a + digitVal c) 0

/-- Scanner loop of cigar_str_to_list (source lines 127-139): num_str
accumulates digit characters; any other character c appends int(num_str)
copies of c to the output and resets the accumulator.  isnumeric() is
modelled as Char.isDigit (the CIGAR alphabet is ASCII). -/
def cigarScan (numStr : List Char) : List Char → List Char
  | [] => []
  | c :: rest =>
    if c.isDigit then cigarScan (numStr ++ [c]) rest
    else List.replicate (numStrToNat numStr) c ++ cigarScan [] rest

/-- Expansion of a CIGAR string to one character per position, e.g.
3M1D2I to [M, M, M, D, I, I] (source cigar_str_to_list). -/
def cigar_str_to_list (cigar_str : String) : List Char :=
  cigarScan [] cigar_str.toList

/-- Character class [M|I|D] of the source regex: note that it contains
the literal bar character, since inside a character class the bar is not
an alternation operator. -/
def opClassChar (c : Char) : Bool :=
  c = 'M' || c = '|' || c = 'I' || c = 'D'

/-- States of the deterministic recognizer for the source regex
([0-9]+[M|I|D])+ anchored at both ends.  The digit class and the operator
class are disjoint, so the regex language is recognized exactly by this
three-state automaton. -/
inductive RegexState where
  | start : RegexState
  | digits : RegexState
  | afterOp : RegexState
  deriving DecidableEq, Repr

/-- Transition of the recognizer: digits may follow anything that a digit
may start; an operator-class character closes a [0-9]+ group. -/
def rStep : RegexState → Char → Option RegexState
  | .start, c => if c.isDigit then some .digits else none
  | .digits, c =>
    if c.isDigit then some .digits
    else if opClassChar c then some .afterOp else none
  | .afterOp, c => if c.isDigit then some .digits else none

/-- Run of the recognizer: the string is accepted exactly when it ends in
the state reached right after a complete group. -/
def rRun : RegexState → List Char → Bool
  | .afterOp, [] => true
  | .start, [] => false
  | .digits, [] => false
  | st, c :: rest =>
    match rStep st c with
    | none => false
    | some st2 => rRun st2 rest

/-- Validation of a CIGAR string: a full match of the source regex
([0-9]+[M|I|D])+ (source is_cigar_valid, line 110). -/
def is_cigar_valid (cigar_str : String) : Bool :=
  rRun .start cigar_str.toList

/-- Walk loop of get_genome_pos (source lines 167-185).  While the
transcript cursor is behind the query coordinate: a match advances both
cursors, a deletion advances only the genome cursor, an insertion
advances only the transcript cursor and returns NA when it lands the
cursor exactly on the query coordinate.  Once the cursor has caught up
the loop breaks and the genome cursor is returned. -/
def genomeWalk (transcript_coord : Int) :
    List Char → Int → Int → GenomePos
  | [], _, genome_pos => .pos genome_pos
  | c :: rest, transcript_idx, genome_pos =>
    if transcript_idx < transcript_coord then
      if c = 'M' then
        genomeWalk transcript_coord rest (transcript_idx + 1) (genome_pos + 1)
      else if c = 'D' then
        genomeWalk transcript_coord rest transcript_idx (genome_pos + 1)
      else if c = 'I' then
        if transcript_idx + 1 = transcript_coord then .na
        else genomeWalk transcript_coord rest (transcript_idx + 1) genome_pos
      else
        genomeWalk transcript_coord rest transcript_idx genome_pos
    else .pos genome_pos

/-- Resolver get_genome_pos (source lines 142-185): expands the CIGAR,
range-checks the query coordinate against the transcript length (number
of positions that are not deletions), then walks the expansion.  The
ValueError raised on an out-of-range coordinate is modelled as none. -/
def get_genome_pos (transcript_coord : Int) (cigar_str : String)
    (start_pos : Int) : Option GenomePos :=
  let cigar_list := cigar_str_to_list cigar_str
  let transcript_len : Nat := cigar_list.length - cigar_list.count 'D'
  if (transcript_len : Int) ≤ transcript_coord then none
  else some (genomeWalk transcript_coord cigar_list (-1) (start_pos - 1))

/-- Modelled from the spec: the resolver walk run to completion instead
of breaking out early — once the transcript cursor has reached the query
coordinate the remaining entries are skipped without changing any state,
and the final genome cursor is returned ("the scan may also run to
completion and pick the last valid state"). -/
def genomeWalkFull (transcript_coord : Int) :
    List Char → Int → Int → GenomePos
  | [], _, genome_pos => .pos genome_pos
  | c :: rest, transcript_idx, genome_pos =>
    if transcript_idx < transcript_coord then
      if c = 'M' then
        genomeWalkFull transcript_coord rest (transcript_idx + 1) (genome_pos + 1)
      else if c = 'D' then
        genomeWalkFull transcript_coord rest transcript_idx (genome_pos + 1)
      else if c = 'I' then
        if transcript_idx + 1 = transcript_coord then .na
        else genomeWalkFull transcript_coord rest (transcript_idx + 1) genome_pos
      else
        genomeWalkFull transcript_coord rest transcript_idx genome_pos
    else genomeWalkFull transcript_coord rest transcript_idx genome_pos

/-- Modelled from the spec: get_genome_pos with the early exit removed,
compared against the source resolver in the refinement claim. -/
def get_genome_pos_full (transcript_coord : Int) (cigar_str : String)
    (start_pos : Int) : Option GenomePos :=
  let cigar_list := cigar_str_to_list cigar_str
  let transcript_len : Nat := cigar_list.length - cigar_list.count 'D'
  if (transcript_len : Int) ≤ transcript_coord then none
  else some (genomeWalkFull transcript_coord cigar_list (-1) (start_pos - 1))

/-- Decimal digit character for a value, as str() renders one digit. -/
def digitChar : Nat → Char
  | 0 => '0'
  | 1 => '1'
  | 2 => '2'
  | 3 => '3'
  | 4 => '4'
  | 5 => '5'
  | 6 => '6'
  | 7 => '7'
  | 8 => '8'
  | _ => '9'

/-- Decimal digit characters of a number, most significant first, with
explicit fuel (the number itself suffices, since the quotient by ten
strictly decreases). -/
def natDigitsAux : Nat → Nat → List Char
  | 0, _ => []
  | fuel + 1, n =>
    if n = 0 then []
    else natDigitsAux fuel (n / 10) ++ [digitChar (n % 10)]

/-- Decimal rendering of a positive run length (empty for zero). -/
def natDigits (n : Nat) : List Char := natDigitsAux n n

/-- Rendering of a run-length encoding as a CIGAR string: each run is
its length in decimal followed by its operator character. -/
def renderRuns (runs : List (Nat × Char)) : String :=
  String.mk (runs.flatMap (fun r => natDigits r.1 ++ [r.2]))

/-- Record stored per transcript by the loader: genomic chromosome,
genomic start position and CIGAR string (source lines 88-92). -/
structure TranscriptRecord where
  gen_chrom : String
  gen_start : Int
  cigar : String
  deriving DecidableEq, Repr

/-- Digit-string core of Python int(): every character must be a digit
and at least one digit must be present. -/
def pyIntCore (cs : List Char) : Option Nat :=
  match cs with
  | [] => none
  | _ =>
    if cs.all Char.isDigit then
      some (cs.foldl (fun a c => 10 * a + digitVal c) 0)
    else none

/-- Python int() on an already stripped field: an optional sign followed
by a non-empty digit string; a ValueError is modelled as none. -/
def pyInt (s : String) : Option Int :=
  match s.toList with
  | '-' :: rest => (pyIntCore rest).map (fun n => -(n : Int))
  | '+' :: rest => (pyIntCore rest).map (fun n => (n : Int))
  | cs => (pyIntCore cs).map (fun n => (n : Int))

/-- Loader loop of get_transcript_dict (source lines 78-96), over lines
already split on tabs and stripped.  The dict is modelled as an
insertion-ordered association list.  Each line must have exactly 4
fields, a valid CIGAR, a fresh transcript id, and a position accepted by
int(); the ValueError raised otherwise is modelled as none. -/
def get_transcript_dict :
    List (List String) → List (String × TranscriptRecord) →
    Option (List (String × TranscriptRecord))
  | [], transcripts => some transcripts
  | fields :: rest, transcripts =>
    match fields with
    | [tr_id, chrom, pos, cigar] =>
      if is_cigar_valid cigar then
        if (transcripts.lookup tr_id).isNone then
          match pyInt pos with
          | none => none
          | some p =>
            get_transcript_dict rest
              (transcripts ++ [(tr_id, ⟨chrom, p, cigar⟩)])
        else none
      else none
    | _ => none

/-- Output row of the query loop: transcript id, transcript coordinate,
genomic chromosome, genomic position. -/
abbrev QueryRow := String × Int × String × GenomePos

/-- Result of one query as a pure function of that query alone and the
read-only transcript store: lookup of the transcript record followed by
the resolver, independent of every other query. -/
def rowFor (transcripts : List (String × TranscriptRecord))
    (q : String × Int) : Option QueryRow :=
  match transcripts.lookup q.1 with
  | none => none
  | some r =>
    match get_genome_pos q.2 r.cigar r.gen_start with
    | none => none
    | some gen_pos => some (q.1, q.2, r.gen_chrom, gen_pos)

/-- Query loop of query_transcript (source lines 215-231), over queries
already split into (transcript id, coordinate) pairs: each line is looked
up in the transcript store, resolved, and written as one output row; the
KeyError of a missing id and the ValueError of the resolver are modelled
as none. -/
def query_transcript_loop (transcripts : List (String × TranscriptRecord)) :
    List (String × Int) → Option (List QueryRow)
  | [] => some []
  | (tr_id, tr_coord) :: rest =>
    match transcripts.lookup tr_id with
    | none => none
    | some r =>
      match get_genome_pos tr_coord r.cigar r.gen_start with
      | none => none
      | some gen_pos =>
        match query_transcript_loop transcripts rest with
        | none => none
        | some rows => some ((tr_id, tr_coord, r.gen_chrom, gen_pos) :: rows)

/-- Operator characters of the specified grammar: M, I or D. -/
def opChar (c : Char) : Bool := c = 'M' || c = 'I' || c = 'D'

/-- Well-formedness of one loader line: exactly 4 fields, a CIGAR the
validator accepts, and a position int() accepts. -/
def lineOk (fields : List String) : Bool :=
  match fields with
  | [_, _, pos, cigar] => is_cigar_valid cigar && (pyInt pos).isSome
  | _ => false

/-- Transcript identifier of a loader line (its first field). -/
def lineId (fields : List String) : String := fields.headD ""

/-- Record the loader stores for a well-formed line. -/
def mkRecord (fields : List String) : String × TranscriptRecord :=
  match fields with
  | [tr_id, chrom, pos, cigar] => (tr_id, ⟨chrom, (pyInt pos).getD 0, cigar⟩)
  | _ => ("", ⟨"", 0, ""⟩)


/-- Every character produced by digitChar is an ASCII digit. -/
theorem digitChar_isDigit (d : Nat) : (digitChar d).isDigit = true := by
  unfold digitChar
  split <;> rfl

/-- On values below ten, digitVal inverts digitChar. -/
theorem digitVal_digitChar (d : Nat) (h : d < 10) :
    digitVal (digitChar d) = d := by
  interval_cases d <;> rfl

/-- Every character of a rendered number is an ASCII digit. -/
theorem natDigitsAux_isDigit :
    ∀ fuel n : Nat, ∀ c ∈ natDigitsAux fuel n, c.isDigit = true := by
  intro fuel
  induction fuel with
  | zero => intro n c hc; simp [natDigitsAux] at hc
  | succ fuel ih =>
    intro n c hc
    by_cases h : n = 0
    · simp [natDigitsAux, h] at hc
    · simp only [natDigitsAux, if_neg h, List.mem_append] at hc
      rcases hc with hc | hc
      · exact ih _ c hc
      · simp at hc
        subst hc
        exact digitChar_isDigit _

/-- Folding the digit accumulator over a rendered number recovers the
number, shifted under whatever was already accumulated. -/
theorem natDigitsAux_foldl :
    ∀ fuel n : Nat, n ≤ fuel → ∀ a : Nat,
    (natDigitsAux fuel n).foldl (fun a c => 10 * a + digitVal c) a
      = a * 10 ^ (natDigitsAux fuel n).length + n := by
  intro fuel
  induction fuel with
  | zero =>
    intro n hn a
    interval_cases n
    simp [natDigitsAux]
  | succ fuel ih =>
    intro n hn a
    by_cases h : n = 0
    · subst h; simp [natDigitsAux]
    · simp only [natDigitsAux, if_neg h, List.foldl_append, List.length_append,
        List.foldl_cons, List.foldl_nil, List.length_cons, List.length_nil]
      rw [ih (n / 10) (by omega) a]
      rw [digitVal_digitChar (n % 10) (by omega)]
      rw [pow_succ]
      ring_nf
      omega

/-- The accumulated digit string of a rendered run length evaluates back
to the run length. -/
theorem numStrToNat_natDigits (n : Nat) : numStrToNat (natDigits n) = n := by
  have h := natDigitsAux_foldl n n le_rfl 0
  simpa [numStrToNat, natDigits] using h

/-- Scanning a block of digit characters only grows the accumulator. -/
theorem cigarScan_digits :
    ∀ ds acc rest : List Char, (∀ c ∈ ds, c.isDigit = true) →
    cigarScan acc (ds ++ rest) = cigarScan (acc ++ ds) rest := by
  intro ds
  induction ds with
  | nil => intro acc rest _; simp
  | cons c ds ih =>
    intro acc rest h
    have hc : c.isDigit = true := h c (by simp)
    simp only [List.cons_append, cigarScan, hc, if_true, List.append_eq]
    rw [ih (acc ++ [c]) rest (fun x hx => h x (by simp [hx]))]
    simp

/-- Scanning a non-digit character flushes the accumulator as a run. -/
theorem cigarScan_op (acc : List Char) (c : Char) (rest : List Char)
    (h : c.isDigit = false) :
    cigarScan acc (c :: rest)
      = List.replicate (numStrToNat acc) c ++ cigarScan [] rest := by
  simp [cigarScan, h]

/-- Grammar operator characters are not digits. -/
theorem opChar_not_digit (c : Char) (h : opChar c = true) :
    c.isDigit = false := by
  simp only [opChar, Bool.or_eq_true, decide_eq_true_eq] at h
  rcases h with (h | h) | h <;> subst h <;> rfl

/-- Scanning the rendering of a run list yields the per-run replication
of its operators. -/
theorem cigarScan_render :
    ∀ runs : List (Nat × Char), (∀ r ∈ runs, opChar r.2 = true) →
    cigarScan [] (runs.flatMap (fun r => natDigits r.1 ++ [r.2]))
      = runs.flatMap (fun r => List.replicate r.1 r.2) := by
  intro runs
  induction runs with
  | nil => intro _; rfl
  | cons r rs ih =>
    intro h
    have hop : opChar r.2 = true := h r (by simp)
    simp only [List.flatMap_cons, List.append_assoc, List.singleton_append]
    rw [cigarScan_digits (natDigits r.1) [] _
      (fun c hc => natDigitsAux_isDigit _ _ c hc)]
    simp only [List.nil_append]
    rw [cigarScan_op _ _ _ (opChar_not_digit _ hop)]
    rw [numStrToNat_natDigits]
    rw [ih (fun x hx => h x (by simp [hx]))]

/-- Once the transcript cursor has caught up with the query coordinate,
the full-scan walk changes nothing and returns the genome cursor. -/
theorem genomeWalkFull_stuck (coord : Int) :
    ∀ (l : List Char) (t g : Int), coord ≤ t →
    genomeWalkFull coord l t g = .pos g := by
  intro l
  induction l with
  | nil => intro t g _; rfl
  | cons c rest ih =>
    intro t g ht
    simp only [genomeWalkFull, if_neg (by omega : ¬ t < coord)]
    exact ih t g ht

/-- The early-exit walk agrees with the full-scan walk everywhere. -/
theorem genomeWalk_eq_full (coord : Int) :
    ∀ (l : List Char) (t g : Int),
    genomeWalk coord l t g = genomeWalkFull coord l t g := by
  intro l
  induction l with
  | nil => intro t g; rfl
  | cons c rest ih =>
    intro t g
    by_cases ht : t < coord
    · simp only [genomeWalk, genomeWalkFull, if_pos ht]
      by_cases hM : c = 'M'
      · simp only [if_pos hM]; exact ih _ _
      · simp only [if_neg hM]
        by_cases hD : c = 'D'
        · simp only [if_pos hD]; exact ih _ _
        · simp only [if_neg hD]
          by_cases hI : c = 'I'
          · simp only [if_pos hI]
            by_cases hEq : t + 1 = coord
            · simp only [if_pos hEq]
            · simp only [if_neg hEq]; exact ih _ _
          · simp only [if_neg hI]; exact ih _ _
    · simp only [genomeWalk, genomeWalkFull, if_neg ht]
      rw [genomeWalkFull_stuck coord rest t g (by omega)]

/-- The walk over a block of insertions behind which the query coordinate
lies always lands the transcript cursor on the coordinate and yields NA. -/
theorem genomeWalk_all_ins (coord : Int) :
    ∀ l : List Char, (∀ c ∈ l, c = 'I') →
    ∀ t g : Int, t < coord → coord ≤ t + l.length →
    genomeWalk coord l t g = .na := by
  intro l
  induction l with
  | nil => intro _ t g h1 h2; simp at h2; omega
  | cons c rest ih =>
    intro hall t g h1 h2
    have hc : c = 'I' := hall c (by simp)
    subst hc
    have e1 : genomeWalk coord ('I' :: rest) t g
        = if t + 1 = coord then GenomePos.na
          else genomeWalk coord rest (t + 1) g := by
      simp only [genomeWalk, if_pos h1]
      rw [if_neg (by decide : ¬ ('I' : Char) = 'M'),
        if_neg (by decide : ¬ ('I' : Char) = 'D')]
      simp
    rw [e1]
    by_cases hEq : t + 1 = coord
    · rw [if_pos hEq]
    · rw [if_neg hEq]
      refine ih (fun x hx => hall x (by simp [hx])) (t + 1) g (by omega) ?_
      simp only [List.length_cons] at h2
      push_cast at h2 ⊢
      omega

/-- The transcript length computed by the source (length minus deletion
count) equals the number of non-deletion entries of the expansion. -/
theorem length_sub_count_eq_countP (l : List Char) :
    l.length - l.count 'D' = l.countP (fun c => !(c == 'D')) := by
  induction l with
  | nil => rfl
  | cons c rest ih =>
    have hle : rest.count 'D' ≤ rest.length := List.count_le_length 'D' rest
    by_cases h : c = 'D' <;>
      simp [List.count_cons, List.countP_cons, h] <;> omega

/-- Unfolding of the resolver into its range check and walk. -/
theorem get_genome_pos_eq (coord : Int) (s : String) (start : Int) :
    get_genome_pos coord s start
      = if (((cigar_str_to_list s).length
              - (cigar_str_to_list s).count 'D' : Nat) : Int) ≤ coord
        then none
        else some (genomeWalk coord (cigar_str_to_list s) (-1) (start - 1)) :=
  rfl

/-- The resolver reports a range error exactly when the query coordinate
reaches the count of non-deletion entries of the expansion. -/
theorem get_genome_pos_none_iff (coord : Int) (s : String) (start : Int) :
    get_genome_pos coord s start = none
      ↔ (((cigar_str_to_list s).countP (fun c => !(c == 'D')) : Nat) : Int)
          ≤ coord := by
  rw [get_genome_pos_eq, ← length_sub_count_eq_countP]
  split <;> simp_all

/-- A negative query coordinate passes the range check and breaks out of
the walk before its first step. -/
theorem get_genome_pos_neg_coord (coord : Int) (s : String) (start : Int)
    (h : coord < 0) :
    get_genome_pos coord s start = some (.pos (start - 1)) := by
  rw [get_genome_pos_eq,
    if_neg (by omega :
      ¬ (((cigar_str_to_list s).length
            - (cigar_str_to_list s).count 'D' : Nat) : Int) ≤ coord)]
  cases hl : cigar_str_to_list s with
  | nil => rfl
  | cons c rest =>
    simp only [genomeWalk, if_neg (by omega : ¬ (-1 : Int) < coord)]

/-- On an expansion made of insertions only, every non-negative in-range
query coordinate resolves to NA. -/
theorem get_genome_pos_all_ins (s : String) (start coord : Int)
    (h0 : 0 ≤ coord) (hlt : coord < ((cigar_str_to_list s).length : Int))
    (hall : ∀ c ∈ cigar_str_to_list s, c = 'I') :
    get_genome_pos coord s start = some .na := by
  have hD : (cigar_str_to_list s).count 'D' = 0 := by
    rw [List.count_eq_zero]
    intro hmem
    have hDI := hall _ hmem
    simp at hDI
  rw [get_genome_pos_eq, hD, Nat.sub_zero, if_neg (by omega)]
  rw [genomeWalk_all_ins coord _ hall (-1) (start - 1) (by omega) (by omega)]

/-- Lookup in the transcript store fails exactly when the identifier is
absent from the stored keys. -/
theorem lookup_eq_none_iff (l : List (String × TranscriptRecord))
    (a : String) : l.lookup a = none ↔ a ∉ l.map Prod.fst := by
  induction l with
  | nil => simp [List.lookup]
  | cons p rest ih =>
    obtain ⟨k, b⟩ := p
    by_cases h : k = a
    · subst h
      simp [List.lookup]
    · have hk : (a == k) = false := by
        simp only [beq_eq_false_iff_ne, ne_eq]
        exact fun hak => h hak.symm
      simp only [List.lookup, hk, List.map_cons, List.mem_cons]
      rw [ih]
      constructor
      · intro hn hor
        rcases hor with hor | hor
        · exact h hor.symm
        · exact hn hor
      · intro hn
        exact fun hm => hn (Or.inr hm)

/-- When every line is well formed and the transcript identifiers (of the
lines and of the accumulator) are pairwise fresh, the loader returns the
accumulator extended by one record per line, in order. -/
theorem get_transcript_dict_sound :
    ∀ (lines : List (List String)) (acc : List (String × TranscriptRecord)),
    lines.all lineOk = true →
    (lines.map lineId).Nodup →
    (∀ i ∈ lines.map lineId, i ∉ acc.map Prod.fst) →
    get_transcript_dict lines acc = some (acc ++ lines.map mkRecord) := by
  intro lines
  induction lines with
  | nil => intro acc _ _ _; simp [get_transcript_dict]
  | cons line rest ih =>
    intro acc hok hnd hdisj
    simp only [List.all_cons, Bool.and_eq_true] at hok
    obtain ⟨hline, hrest⟩ := hok
    rcases line with _ | ⟨tr_id, line⟩
    · simp [lineOk] at hline
    rcases line with _ | ⟨chrom, line⟩
    · simp [lineOk] at hline
    rcases line with _ | ⟨pos, line⟩
    · simp [lineOk] at hline
    rcases line with _ | ⟨cigar, line⟩
    · simp [lineOk] at hline
    rcases line with _ | ⟨x, line⟩
    swap
    · simp [lineOk] at hline
    simp only [lineOk, Bool.and_eq_true] at hline
    obtain ⟨hvalid, hsome⟩ := hline
    obtain ⟨p, hp⟩ := Option.isSome_iff_exists.mp hsome
    simp only [List.map_cons, List.nodup_cons, lineId, List.headD] at hnd
    obtain ⟨hni, hnd2⟩ := hnd
    have hid : tr_id ∉ acc.map Prod.fst := by
      refine hdisj tr_id ?_
      simp [lineId]
    have hlk : (acc.lookup tr_id).isNone = true := by
      rw [Option.isNone_iff_eq_none, lookup_eq_none_iff]
      exact hid
    simp only [get_transcript_dict, hvalid, if_true, hlk, hp]
    have hdisj2 : ∀ i ∈ rest.map lineId,
        i ∉ (acc ++ [(tr_id, TranscriptRecord.mk chrom p cigar)]).map Prod.fst := by
      intro i hi
      simp only [List.map_append, List.map_cons, List.map_nil,
        List.mem_append, List.mem_singleton]
      rintro (hacc | hhd)
      · refine hdisj i ?_ hacc
        simp only [List.map_cons, List.mem_cons]
        right
        exact hi
      · subst hhd
        exact hni hi
    have step := ih (acc ++ [(tr_id, TranscriptRecord.mk chrom p cigar)])
      hrest hnd2 hdisj2
    rw [step]
    simp [mkRecord, hp, List.append_assoc]

/-- A successful load forces every line to be well formed and every
transcript identifier to be fresh, both among the lines and against the
accumulator. -/
theorem get_transcript_dict_complete :
    ∀ (lines : List (List String)) (acc m : List (String × TranscriptRecord)),
    get_transcript_dict lines acc = some m →
    lines.all lineOk = true ∧ (lines.map lineId).Nodup ∧
      ∀ i ∈ lines.map lineId, i ∉ acc.map Prod.fst := by
  intro lines
  induction lines with
  | nil => intro acc m _; simp
  | cons line rest ih =>
    intro acc m h
    rcases line with _ | ⟨tr_id, line⟩
    · simp [get_transcript_dict] at h
    rcases line with _ | ⟨chrom, line⟩
    · simp [get_transcript_dict] at h
    rcases line with _ | ⟨pos, line⟩
    · simp [get_transcript_dict] at h
    rcases line with _ | ⟨cigar, line⟩
    · simp [get_transcript_dict] at h
    rcases line with _ | ⟨x, line⟩
    swap
    · simp [get_transcript_dict] at h
    by_cases hvalid : is_cigar_valid cigar = true
    swap
    · simp [get_transcript_dict, hvalid] at h
    by_cases hlk : (acc.lookup tr_id).isNone = true
    swap
    · simp [get_transcript_dict, hvalid, hlk] at h
    cases hp : pyInt pos with
    | none => simp [get_transcript_dict, hvalid, hlk, hp] at h
    | some p =>
      simp only [get_transcript_dict, hvalid, if_true, hlk, hp] at h
      obtain ⟨hrest, hnd2, hdisj2⟩ := ih _ _ h
      have htr : tr_id ∉ acc.map Prod.fst := by
        rw [← lookup_eq_none_iff, ← Option.isNone_iff_eq_none]
        exact hlk
      have hni : tr_id ∉ rest.map lineId := by
        intro hmem
        exact hdisj2 tr_id hmem (by simp)
      refine ⟨?_, ?_, ?_⟩
      · simp only [List.all_cons, Bool.and_eq_true]
        refine ⟨?_, hrest⟩
        simp [lineOk, hvalid, hp]
      · simp only [List.map_cons, List.nodup_cons]
        refine ⟨?_, hnd2⟩
        simpa [lineId] using hni
      · intro i hi
        simp only [List.map_cons, List.mem_cons, lineId, List.headD] at hi
        rcases hi with hi | hi
        · subst hi
          exact htr
        · intro hacc
          exact hdisj2 i hi (by simp [hacc])

/-- The sequential query loop computes exactly the independent per-query
function on every query, in order. -/
theorem query_transcript_loop_eq_mapM
    (transcripts : List (String × TranscriptRecord)) :
    ∀ qs : List (String × Int),
    query_transcript_loop transcripts qs = qs.mapM (rowFor transcripts) := by
  intro qs
  induction qs with
  | nil => rfl
  | cons q rest ih =>
    obtain ⟨tr_id, tr_coord⟩ := q
    rw [List.mapM_cons]
    simp only [query_transcript_loop, rowFor, ih]
    cases transcripts.lookup tr_id with
    | none => rfl
    | some r =>
      cases hg : get_genome_pos tr_coord r.cigar r.gen_start with
      | none => simp [hg]
      | some gp =>
        cases hm : rest.mapM (rowFor transcripts) with
        | none => simp [hg, hm]
        | some rows => simp [hg, hm]

/-- Unfolding of the full-scan resolver variant. -/
theorem get_genome_pos_full_eq (coord : Int) (s : String) (start : Int) :
    get_genome_pos_full coord s start
      = if (((cigar_str_to_list s).length
              - (cigar_str_to_list s).count 'D' : Nat) : Int) ≤ coord
        then none
        else some (genomeWalkFull coord (cigar_str_to_list s) (-1) (start - 1)) :=
  rfl

/-- Claim C1: on Match positions resolve returns the genomic coordinate
of the documented cursor walk; in particular the four documented example
queries give 3, 0, 7 and 38. -/
theorem resolve_match_examples :
    get_genome_pos 0 "10M" 3 = some (.pos 3) ∧
    get_genome_pos 0 "10M" 0 = some (.pos 0) ∧
    get_genome_pos 4 "8M7D6M2I2M11D7M" 3 = some (.pos 7) ∧
    get_genome_pos 19 "8M7D6M2I2M11D7M" 3 = some (.pos 38) := by
  decide

/-- Claim C2: a query coordinate inside an insertion resolves to the NA
sentinel; the three documented examples hold, and on an encoding made of
insertion runs only, every in-range query coordinate resolves to NA. -/
theorem resolve_insertion_na :
    get_genome_pos 3 "3M2D1I1M1I2M" 2 = some .na ∧
    get_genome_pos 4 "3M2D1I1M1I2M" 2 = some (.pos 7) ∧
    get_genome_pos 1 "3I" 2 = some .na ∧
    ∀ (s : String) (start coord : Int),
      is_cigar_valid s = true →
      (∀ c ∈ cigar_str_to_list s, c = 'I') →
      0 ≤ coord → coord < ((cigar_str_to_list s).length : Int) →
      get_genome_pos coord s start = some .na := by
  refine ⟨by decide, by decide, by decide, ?_⟩
  intro s start coord _ hall h0 hlt
  exact get_genome_pos_all_ins s start coord h0 hlt hall

/-- Witness for claim C2 at the all-insertion encoding 2I. -/
theorem resolve_insertion_na_witness :
    get_genome_pos 0 "2I" 5 = some GenomePos.na :=
  resolve_insertion_na.2.2.2 "2I" 5 0 (by decide) (by decide) (by decide)
    (by decide)

/-- Claim C3: resolve reports a range error exactly when the query
coordinate is at least the transcript length, the count of non-deletion
entries of the expansion; in particular coordinate 8 against
3M2D1I1M1I2M fails. -/
theorem resolve_range_check_iff :
    (∀ (s : String) (start coord : Int),
      is_cigar_valid s = true → 0 ≤ coord →
      (get_genome_pos coord s start = none
        ↔ (((cigar_str_to_list s).countP (fun c => !(c == 'D')) : Nat) : Int)
            ≤ coord)) ∧
    get_genome_pos 8 "3M2D1I1M1I2M" 2 = none := by
  refine ⟨?_, by decide⟩
  intro s start coord _ _
  exact get_genome_pos_none_iff coord s start

/-- Witness for claim C3 at the all-insertion encoding 3I, coordinate 3. -/
theorem resolve_range_check_iff_witness :
    get_genome_pos 3 "3I" 7 = none :=
  (resolve_range_check_iff.1 "3I" 7 3 (by decide) (by decide)).mpr (by decide)

/-- Claim C4: contrary to the claim (and to the module docstring of the
source), the validator accepts encodings composed entirely of deletion
runs: the regex performs no non-deletion check. -/
theorem all_deletion_cigar_accepted :
    is_cigar_valid "3D" = true ∧ is_cigar_valid "2D5D" = true := by
  decide

/-- Claim C5: contrary to the claim, the validator does not accept
exactly the grammar with operators M, I, D and positive run lengths: the
character class of the source regex literally contains the bar character,
and its digit class permits a run length of zero, so both 3 bar and 0M
are accepted. -/
theorem regex_class_accepts_bar_and_zero :
    is_cigar_valid "3|" = true ∧ is_cigar_valid "0M" = true := by
  decide

/-- Claim C6: the resolver with early exit returns the same result as
the full-scan variant that walks all remaining expanded entries. -/
theorem resolve_early_exit_eq_full_scan :
    ∀ (s : String) (start coord : Int),
    get_genome_pos coord s start = get_genome_pos_full coord s start := by
  intro s start coord
  rw [get_genome_pos_eq, get_genome_pos_full_eq, genomeWalk_eq_full]

/-- Claim C7: on every valid encoding the expander produces exactly the
concatenation, in order, of run-length copies of each run's operator. -/
theorem expander_replicates_runs :
    ∀ runs : List (Nat × Char),
    (∀ r ∈ runs, 1 ≤ r.1 ∧ opChar r.2 = true) →
    cigar_str_to_list (renderRuns runs)
      = runs.flatMap (fun r => List.replicate r.1 r.2) := by
  intro runs h
  have hrl : (renderRuns runs).toList
      = runs.flatMap (fun r => natDigits r.1 ++ [r.2]) := rfl
  rw [cigar_str_to_list, hrl]
  exact cigarScan_render runs (fun r hr => (h r hr).2)

/-- Witness for claim C7 at the encoding 3M1D2I. -/
theorem expander_replicates_runs_witness :
    cigar_str_to_list (renderRuns [(3, 'M'), (1, 'D'), (2, 'I')])
      = ['M', 'M', 'M', 'D', 'I', 'I'] := by
  rw [expander_replicates_runs [(3, 'M'), (1, 'D'), (2, 'I')] (by decide)]
  decide

/-- Claim C8: for a fixed transcript store the query loop is a pure,
independent map over the queries: it equals the per-query function
rowFor applied to each query in order, so resolution of one query
neither depends on nor affects any other query. -/
theorem query_loop_is_independent_map :
    ∀ (transcripts : List (String × TranscriptRecord))
      (qs : List (String × Int)),
    query_transcript_loop transcripts qs = qs.mapM (rowFor transcripts) :=
  fun transcripts qs => query_transcript_loop_eq_mapM transcripts qs

/-- Claim C9, counterexample to the claim as stated: a line with exactly
4 columns, a valid CIGAR and a fresh identifier on which the load
nevertheless fails, because its position column is rejected by int(). -/
theorem loader_counterexample :
    (["A", "chr1", "xx", "3M"] : List String).length = 4 ∧
    is_cigar_valid "3M" = true ∧
    ([["A", "chr1", "xx", "3M"]].map lineId).Nodup ∧
    get_transcript_dict [["A", "chr1", "xx", "3M"]] [] = none := by
  decide

/-- Claim C9 as amended: the load fails exactly when some line has a
column count other than 4, an invalid CIGAR, a position rejected by
int(), or a repeated transcript identifier; otherwise it returns the
mapping keyed by transcript identifier containing every record. -/
theorem loader_amended :
    ∀ lines : List (List String),
    (get_transcript_dict lines [] = none
      ↔ ¬ (lines.all lineOk = true ∧ (lines.map lineId).Nodup)) ∧
    (lines.all lineOk = true → (lines.map lineId).Nodup →
      get_transcript_dict lines [] = some (lines.map mkRecord)) := by
  intro lines
  have hsound : lines.all lineOk = true → (lines.map lineId).Nodup →
      get_transcript_dict lines [] = some (lines.map mkRecord) := by
    intro h1 h2
    have h := get_transcript_dict_sound lines [] h1 h2 (by simp)
    simpa using h
  refine ⟨⟨?_, ?_⟩, hsound⟩
  · intro hnone hgood
    rw [hsound hgood.1 hgood.2] at hnone
    exact Option.noConfusion hnone
  · intro hbad
    cases hres : get_transcript_dict lines [] with
    | none => rfl
    | some m =>
      obtain ⟨h1, h2, _⟩ := get_transcript_dict_complete lines [] m hres
      exact absurd ⟨h1, h2⟩ hbad

/-- Witness for the amended claim C9 on a single well-formed line. -/
theorem loader_amended_witness :
    get_transcript_dict [["A", "c", "5", "2M"]] []
      = some [("A", ⟨"c", 5, "2M"⟩)] := by
  rw [(loader_amended [["A", "c", "5", "2M"]]).2 (by decide) (by decide)]
  decide

/-- Claim C10: a negative query coordinate passes the range check and
the walk breaks before its first step, returning start position minus
one, with neither the range error nor the NA sentinel. -/
theorem negative_coord_returns_start_pred :
    ∀ (s : String) (start coord : Int),
    is_cigar_valid s = true → coord < 0 →
    get_genome_pos coord s start = some (.pos (start - 1)) := by
  intro s start coord _ h
  exact get_genome_pos_neg_coord coord s start h

/-- Witness for claim C10 at coordinate minus one against 10M. -/
theorem negative_coord_returns_start_pred_witness :
    get_genome_pos (-1) "10M" 5 = some (GenomePos.pos 4) := by
  have h := negative_coord_returns_start_pred "10M" 5 (-1) (by decide)
    (by decide)
  simpa using h
